import Mathlib

/-
  Verification of the Hospital-Discharge-Management-System conversation
  context engine and its frontend upload / proxy routes.

  The conversation context engine (Message Log, Session Registry, Token
  Estimator, Window Selector, Summarizer Trigger, Context Assembler) is
  specified in spec.md sections 3 - 4 and documented in the repository's
  design document (Chat History & Context System); its definitions below
  are modelled from the spec.  The frontend route handlers
  (history proxy route, DocumentUploader.handleUpload, discharge page
  handleSubmit) are embedded directly from the TypeScript source.
-/

namespace HDMS

/-- Modelled from the spec: a Message of the Message Log (spec section 3).
The backend implementation is not part of the provided sources; the fields
kept here are the ones the claims are about: `session_id`, `role`,
`content`, `intent` and the per-session `sequence` number. -/
structure Message where
  session_id : String
  role : String
  content : String
  intent : Option String
  sequence : Nat
deriving Repr, DecidableEq

/-- Modelled from the spec: the mutable Session record of the Session
Registry (spec section 3), restricted to the aggregate fields the claims
are about. `summary_through_sequence` is 0 while no summary exists. -/
structure Session where
  message_count : Nat
  last_intent : Option String
  context_summary : Option String
  summary_through_sequence : Nat
deriving Repr, DecidableEq

/-- The freshly created Session record (all aggregates empty). -/
def Session.empty : Session :=
  { message_count := 0, last_intent := none, context_summary := none,
    summary_through_sequence := 0 }

/-- Modelled from the spec: the persisted state of one conversation
session, namely its Message Log entries (ordered, oldest first) together
with its Session Registry record. -/
structure SysState where
  sessionId : String
  msgs : List Message
  session : Session
deriving Repr, DecidableEq

/-- The state of a just-created session (`getOrCreate` on a fresh id). -/
def initState (sid : String) : SysState :=
  { sessionId := sid, msgs := [], session := Session.empty }

/-- Modelled from the spec: Message Log `append` (spec section 4.1).  The
log, not the caller, assigns the sequence number; the assignment is atomic,
so the next sequence is always the current log length plus one.  Returns
the updated state and the assigned sequence. -/
def appendMessage (st : SysState) (role content : String)
    (intent : Option String) : SysState × Nat :=
  let seq := st.msgs.length + 1
  ({ st with msgs := st.msgs ++
      [{ session_id := st.sessionId, role := role, content := content,
         intent := intent, sequence := seq }] }, seq)

/-- Modelled from the spec: Session Registry `recordTurn` (spec section
4.2) combined with the Message Log append it accounts for (spec section 2
data flow): the turn is appended to the log and `message_count` and
`last_intent` are updated under per-session mutual exclusion. -/
def recordTurn (st : SysState) (role content : String)
    (intent : Option String) : SysState :=
  let st1 := (appendMessage st role content intent).1
  { st1 with session := { st1.session with
      message_count := st1.session.message_count + 1,
      last_intent := intent } }

/-- Modelled from the spec: Session Registry `applySummary` (spec section
4.4): a monotonic merge that only updates `context_summary` and
`summary_through_sequence` when the supplied `through` is strictly greater
than the stored value, and otherwise is a silent no-op. -/
def applySummary (st : SysState) (txt : String) (through : Nat) : SysState :=
  if st.session.summary_through_sequence < through then
    { st with session := { st.session with
        context_summary := some txt,
        summary_through_sequence := through } }
  else st

/-- Modelled from the spec: one atomic state transition of a session.  A
`turn` step is a `recordTurn`; a `summarize` step is the merge of a
successful summarization result whose boundary `through` was
`message_count - 10` at invocation time (spec section 4.4), hence positive
and at most the current log length minus 10, since the log only grows. -/
inductive Step : SysState → SysState → Prop where
  | turn (st : SysState) (role content : String) (intent : Option String) :
      Step st (recordTurn st role content intent)
  | summarize (st : SysState) (txt : String) (through : Nat)
      (hpos : 0 < through) (hbound : through + 10 ≤ st.msgs.length) :
      Step st (applySummary st txt through)

/-- A session state reachable from a fresh session by atomic steps; any
concurrent execution of the (atomic, per-session serialized) operations
linearizes to such a sequence of steps. -/
inductive Reachable : SysState → Prop where
  | init (sid : String) : Reachable (initState sid)
  | step {st st' : SysState} : Reachable st → Step st st' → Reachable st'

theorem applySummary_msgs (st : SysState) (txt : String) (through : Nat) :
    (applySummary st txt through).msgs = st.msgs := by
  unfold applySummary; split <;> rfl

theorem applySummary_sessionId (st : SysState) (txt : String) (through : Nat) :
    (applySummary st txt through).sessionId = st.sessionId := by
  unfold applySummary; split <;> rfl

theorem applySummary_message_count (st : SysState) (txt : String)
    (through : Nat) :
    (applySummary st txt through).session.message_count =
      st.session.message_count := by
  unfold applySummary; split <;> rfl

/-- The invariant maintained by every reachable session state. -/
def Inv (st : SysState) : Prop :=
  st.session.message_count = st.msgs.length
  ∧ st.msgs.map Message.sequence = List.range' 1 st.msgs.length
  ∧ (∀ m ∈ st.msgs, m.session_id = st.sessionId)
  ∧ (st.msgs.length ≤ 10 →
      st.session.context_summary = none
      ∧ st.session.summary_through_sequence = 0)

theorem step_preserves_inv {st st' : SysState} (hstep : Step st st')
    (ih : Inv st) : Inv st' := by
  obtain ⟨ih1, ih2, ih3, ih4⟩ := ih
  cases hstep with
  | turn role content intent =>
    refine ⟨?_, ?_, ?_, ?_⟩
    · simp [recordTurn, appendMessage, ih1]
    · simp only [recordTurn, appendMessage, List.map_append, ih2,
        List.length_append, List.map_cons, List.map_nil,
        List.length_cons, List.length_nil]
      rw [List.range'_1_concat]
      simp [Nat.add_comm]
    · intro m hm
      simp only [recordTurn, appendMessage, List.mem_append,
        List.mem_cons, List.not_mem_nil, or_false] at hm
      rcases hm with hm | hm
      · exact ih3 m hm
      · subst hm; rfl
    · intro hle
      simp only [recordTurn, appendMessage, List.length_append,
        List.length_cons, List.length_nil] at hle
      have hlen : st.msgs.length ≤ 10 := by omega
      have h4 := ih4 hlen
      simp [recordTurn, appendMessage, h4.1, h4.2]
  | summarize txt through hpos hbound =>
    refine ⟨?_, ?_, ?_, ?_⟩
    · rw [applySummary_message_count, applySummary_msgs]; exact ih1
    · rw [applySummary_msgs]; exact ih2
    · intro m hm
      rw [applySummary_msgs] at hm
      rw [applySummary_sessionId]
      exact ih3 m hm
    · intro hle
      rw [applySummary_msgs] at hle
      omega

/-- The main invariant of reachable session states: `message_count`
tracks the log length, sequences are exactly `1, ..., N`, every logged
message carries the session's id, and a session whose log still fits the
10-message window has no summary. -/
theorem reachable_invariant (st : SysState) (h : Reachable st) : Inv st := by
  induction h with
  | init sid =>
    refine ⟨rfl, rfl, ?_, ?_⟩
    · intro m hm; simp [initState] at hm
    · intro _; exact ⟨rfl, rfl⟩
  | step hr hstep ih => exact step_preserves_inv hstep ih

/-- A small concrete session used to witness the reachability-based
theorems: a fresh session that has recorded one user and one assistant
turn. -/
def demoState0 : SysState := initState "s1"

def demoState1 : SysState :=
  recordTurn demoState0 "user" "hello" (some "greeting")

def demoState2 : SysState :=
  recordTurn demoState1 "assistant" "hi there" (some "greeting")

theorem demoState2_reachable : Reachable demoState2 :=
  Reachable.step
    (Reachable.step (Reachable.init "s1")
      (Step.turn demoState0 "user" "hello" (some "greeting")))
    (Step.turn demoState1 "assistant" "hi there" (some "greeting"))

/-- C2: for every session, after any number N of (atomic, possibly
concurrent) append operations on the Message Log, the sequence values of
that session's messages are exactly 1, 2, ..., N — strictly increasing,
gapless, starting at 1, with no duplicates — stated as: the sequences of
a reachable state's log are exactly `List.range' 1 N` where N is the log
length. -/
theorem sequence_gapless (st : SysState) (h : Reachable st) :
    st.msgs.map Message.sequence = List.range' 1 st.msgs.length :=
  (reachable_invariant st h).2.1

theorem sequence_gapless_witness :
    demoState2.msgs.map Message.sequence = List.range' 1 demoState2.msgs.length
    ∧ demoState2.msgs.map Message.sequence = [1, 2] :=
  ⟨sequence_gapless demoState2 demoState2_reachable, by decide⟩

/-- C3: for every session and after any sequence of recordTurn calls
(linearized, per the spec's per-session mutual exclusion), the session's
`message_count` equals the number of persisted messages whose
`session_id` is that session. -/
theorem message_count_matches_log (st : SysState) (h : Reachable st) :
    st.session.message_count =
      (st.msgs.filter (fun m => m.session_id == st.sessionId)).length := by
  obtain ⟨ih1, _, ih3, _⟩ := reachable_invariant st h
  have hall : st.msgs.filter (fun m => m.session_id == st.sessionId) = st.msgs := by
    apply List.filter_eq_self.mpr
    intro m hm
    simpa using ih3 m hm
  rw [hall, ih1]

theorem message_count_matches_log_witness :
    demoState2.session.message_count =
      (demoState2.msgs.filter (fun m => m.session_id == demoState2.sessionId)).length
    ∧ demoState2.session.message_count = 2 :=
  ⟨message_count_matches_log demoState2 demoState2_reachable, by decide⟩

theorem applySummary_le (st : SysState) (txt : String) (through : Nat) :
    st.session.summary_through_sequence ≤
      (applySummary st txt through).session.summary_through_sequence := by
  by_cases h : st.session.summary_through_sequence < through
  · simp only [applySummary, if_pos h]
    exact Nat.le_of_lt h
  · simp only [applySummary, if_neg h]
    exact Nat.le_refl _

theorem applySummary_foldl_le (st : SysState) (updates : List (String × Nat)) :
    st.session.summary_through_sequence ≤
      (updates.foldl (fun s u => applySummary s u.1 u.2) st).session.summary_through_sequence := by
  induction updates generalizing st with
  | nil => exact Nat.le_refl _
  | cons u rest ih =>
    rw [List.foldl_cons]
    exact Nat.le_trans (applySummary_le st u.1 u.2) (ih (applySummary st u.1 u.2))

/-- C4: across any sequence of applySummary calls, in any arrival order,
`summary_through_sequence` never decreases; and a call whose
`through_sequence` is not strictly greater than the stored value leaves
the whole session state — in particular `context_summary` and
`summary_through_sequence` — unchanged (silent no-op). -/
theorem applySummary_monotone_and_noop (st : SysState)
    (updates : List (String × Nat)) (txt : String) (through : Nat) :
    st.session.summary_through_sequence ≤
      (updates.foldl (fun s u => applySummary s u.1 u.2) st).session.summary_through_sequence
    ∧ (through ≤ st.session.summary_through_sequence →
        applySummary st txt through = st) := by
  refine ⟨applySummary_foldl_le st updates, ?_⟩
  intro hle
  have h : ¬ st.session.summary_through_sequence < through := by omega
  simp [applySummary, h]

/-- A session that already carries a summary through sequence 5. -/
def demoSummarized : SysState := applySummary demoState2 "greeting exchanged" 5

theorem applySummary_monotone_and_noop_witness :
    (demoSummarized.session.summary_through_sequence ≤
        (([("a", 3), ("b", 7)]).foldl (fun s u => applySummary s u.1 u.2)
          demoSummarized).session.summary_through_sequence
      ∧ (2 ≤ demoSummarized.session.summary_through_sequence →
          applySummary demoSummarized "late arrival" 2 = demoSummarized))
    ∧ applySummary demoSummarized "late arrival" 2 = demoSummarized :=
  ⟨applySummary_monotone_and_noop demoSummarized [("a", 3), ("b", 7)] "late arrival" 2,
   (applySummary_monotone_and_noop demoSummarized [("a", 3), ("b", 7)] "late arrival" 2).2
     (by decide)⟩

/-- Modelled from the spec: the Token Estimator (spec section 4.3) — an
approximation proportional to character count (four characters per
token), pure and deterministic by construction. -/
def estimate (text : String) : Nat := text.length / 4

/-- Modelled from the spec: one entry of the Context Package (spec
section 3): system preamble, profile block, summary block, verbatim
window turn, or the current query. -/
inductive Block where
  | system : String → Block
  | profile : String → Block
  | summaryBlock : String → Block
  | turn : Message → Block
  | query : String → Block
deriving Repr, DecidableEq

/-- Token cost of one Context Package entry. -/
def blockTokens : Block → Nat
  | Block.system s => estimate s
  | Block.profile s => estimate s
  | Block.summaryBlock s => estimate s
  | Block.turn m => estimate m.content
  | Block.query s => estimate s

def packageTokens (p : List Block) : Nat := (p.map blockTokens).sum

def windowTokens (w : List Message) : Nat :=
  (w.map (fun m => estimate m.content)).sum

def preamble : String := "You are Swastha, a healthcare assistant."

/-- Modelled from the spec: the Window Selector (spec section 4.4) — the
last 10 messages of the session, oldest first. -/
def window (msgs : List Message) : List Message :=
  msgs.drop (msgs.length - 10)

/-- Modelled from the spec: the fixed head of the Context Package
(spec sections 3 and 4.5): system preamble, profile block, and the
summary block when a summary is stored. -/
def headBlocks (st : SysState) (profileBlock : String) : List Block :=
  [Block.system preamble, Block.profile profileBlock] ++
    (match st.session.context_summary with
     | some s => [Block.summaryBlock s]
     | none => [])

/-- Modelled from the spec: budget trimming of the verbatim window (spec
section 4.5) — while the fixed blocks plus the remaining window exceed
the ceiling, the oldest verbatim turn is removed; the summary and the
current query are never candidates. -/
def trimWindow (fixed ceiling : Nat) : List Message → List Message
  | [] => []
  | m :: rest =>
    if fixed + windowTokens (m :: rest) ≤ ceiling then m :: rest
    else trimWindow fixed ceiling rest

/-- Modelled from the spec: Context Assembler `buildContext` (spec
section 4.5): system preamble, profile block, summary block if present,
verbatim window turns (budget-trimmed from the oldest end), current
query last. -/
def buildContext (st : SysState) (profileBlock q : String)
    (ceiling : Nat) : List Block :=
  let hb := headBlocks st profileBlock
  let fixed := packageTokens hb + estimate q
  let w := trimWindow fixed ceiling (window st.msgs)
  hb ++ w.map Block.turn ++ [Block.query q]

def turnOf : Block → Option Message
  | Block.turn m => some m
  | _ => none

def summaryTextOf : Block → Option String
  | Block.summaryBlock s => some s
  | _ => none

/-- The messages a Context Package includes verbatim, in order. -/
def packageTurns (p : List Block) : List Message := p.filterMap turnOf

/-- The summary texts a Context Package carries, in order. -/
def summaryTexts (p : List Block) : List String := p.filterMap summaryTextOf

theorem buildContext_eq (st : SysState) (profileBlock q : String)
    (ceiling : Nat) :
    buildContext st profileBlock q ceiling =
      headBlocks st profileBlock ++
        (trimWindow (packageTokens (headBlocks st profileBlock) + estimate q)
          ceiling (window st.msgs)).map Block.turn ++ [Block.query q] := rfl

theorem packageTurns_append (p q : List Block) :
    packageTurns (p ++ q) = packageTurns p ++ packageTurns q := by
  simp [packageTurns]

theorem packageTurns_map_turn (w : List Message) :
    packageTurns (w.map Block.turn) = w := by
  induction w with
  | nil => rfl
  | cons m rest ih =>
    simpa [packageTurns, List.filterMap_cons, turnOf] using ih

theorem packageTurns_headBlocks (st : SysState) (profileBlock : String) :
    packageTurns (headBlocks st profileBlock) = [] := by
  cases h : st.session.context_summary <;>
    simp [headBlocks, packageTurns, List.filterMap_cons, turnOf, h]

theorem summaryTexts_append (p q : List Block) :
    summaryTexts (p ++ q) = summaryTexts p ++ summaryTexts q := by
  simp [summaryTexts]

theorem summaryTexts_map_turn (w : List Message) :
    summaryTexts (w.map Block.turn) = [] := by
  induction w with
  | nil => rfl
  | cons m rest ih =>
    simp [summaryTexts, List.filterMap_cons, summaryTextOf]

theorem summaryTexts_headBlocks (st : SysState) (profileBlock : String) :
    summaryTexts (headBlocks st profileBlock) =
      st.session.context_summary.toList := by
  cases h : st.session.context_summary <;>
    simp [headBlocks, summaryTexts, List.filterMap_cons, summaryTextOf, h]

theorem summaryTexts_buildContext (st : SysState) (profileBlock q : String)
    (ceiling : Nat) :
    summaryTexts (buildContext st profileBlock q ceiling) =
      st.session.context_summary.toList := by
  rw [buildContext_eq, summaryTexts_append, summaryTexts_append,
    summaryTexts_headBlocks, summaryTexts_map_turn]
  simp [summaryTexts, List.filterMap_cons, summaryTextOf]

theorem range'_drop (s n k : Nat) :
    (List.range' s n).drop k = List.range' (s + k) (n - k) := by
  induction n generalizing s k with
  | zero => simp
  | succ n ih =>
    cases k with
    | zero => simp
    | succ k =>
      rw [List.range'_succ, List.drop_succ_cons, ih (s + 1) k]
      have h1 : s + 1 + k = s + (k + 1) := by omega
      have h2 : n - k = n + 1 - (k + 1) := by omega
      rw [h1, h2]

theorem trimWindow_of_le (fixed ceiling : Nat) (w : List Message)
    (h : fixed + windowTokens w ≤ ceiling) :
    trimWindow fixed ceiling w = w := by
  cases w with
  | nil => rfl
  | cons m rest => simp only [trimWindow, if_pos h]

theorem trimWindow_drop (fixed ceiling : Nat) (w : List Message) :
    ∃ k, trimWindow fixed ceiling w = w.drop k
      ∧ (fixed + windowTokens (w.drop k) ≤ ceiling ∨ w.drop k = []) := by
  induction w with
  | nil => exact ⟨0, rfl, Or.inr rfl⟩
  | cons m rest ih =>
    by_cases h : fixed + windowTokens (m :: rest) ≤ ceiling
    · refine ⟨0, ?_, Or.inl ?_⟩
      · simp only [trimWindow, if_pos h]
        rfl
      · simpa using h
    · obtain ⟨k, hk, hcond⟩ := ih
      refine ⟨k + 1, ?_, ?_⟩
      · simp only [trimWindow, if_neg h, List.drop_succ_cons]
        exact hk
      · simpa [List.drop_succ_cons] using hcond

/-- C1: for every session, the Context Package produced by buildContext
includes verbatim exactly the most recent 10 messages of the session
(oldest first); every older message appears only through the stored
`context_summary` (the only summary text in the package is the stored
one, and no message older than the window appears as a verbatim turn);
and for a session with at most 10 messages the package contains all of
its messages verbatim and no summary block.  Stated for reachable session
states whose assembled package fits the token ceiling (so that the
separately-specified trimming of claim C5 does not apply). -/
theorem buildContext_window_verbatim (st : SysState) (profileBlock q : String)
    (ceiling : Nat) (hr : Reachable st)
    (hbudget : packageTokens (headBlocks st profileBlock) + estimate q +
        windowTokens (window st.msgs) ≤ ceiling) :
    packageTurns (buildContext st profileBlock q ceiling) = window st.msgs
    ∧ summaryTexts (buildContext st profileBlock q ceiling) =
        st.session.context_summary.toList
    ∧ (∀ m ∈ st.msgs, m.sequence + 10 ≤ st.msgs.length →
        m ∉ packageTurns (buildContext st profileBlock q ceiling))
    ∧ (st.msgs.length ≤ 10 →
        packageTurns (buildContext st profileBlock q ceiling) = st.msgs
        ∧ summaryTexts (buildContext st profileBlock q ceiling) = []) := by
  obtain ⟨ih1, ih2, ih3, ih4⟩ := reachable_invariant st hr
  have htrim : trimWindow (packageTokens (headBlocks st profileBlock) + estimate q)
      ceiling (window st.msgs) = window st.msgs :=
    trimWindow_of_le _ _ _ hbudget
  have hturns : packageTurns (buildContext st profileBlock q ceiling) =
      window st.msgs := by
    rw [buildContext_eq, htrim, packageTurns_append, packageTurns_append,
      packageTurns_headBlocks, packageTurns_map_turn]
    simp [packageTurns, List.filterMap_cons, turnOf]
  refine ⟨hturns, summaryTexts_buildContext st profileBlock q ceiling, ?_, ?_⟩
  · intro m hm hold
    rw [hturns]
    intro hmem
    have hseq : m.sequence ∈ (window st.msgs).map Message.sequence :=
      List.mem_map_of_mem Message.sequence hmem
    rw [window, List.map_drop, ih2, range'_drop, List.mem_range'_1] at hseq
    omega
  · intro hle
    have h4 := ih4 hle
    constructor
    · rw [hturns, window]
      have hz : st.msgs.length - 10 = 0 := by omega
      rw [hz, List.drop_zero]
    · rw [summaryTexts_buildContext, h4.1]
      rfl

theorem buildContext_window_verbatim_witness :
    packageTokens (headBlocks demoState2 "profile data") + estimate "what next" +
        windowTokens (window demoState2.msgs) ≤ 1000
    ∧ packageTurns (buildContext demoState2 "profile data" "what next" 1000) =
        window demoState2.msgs
    ∧ summaryTexts (buildContext demoState2 "profile data" "what next" 1000) = [] := by
  have h := buildContext_window_verbatim demoState2 "profile data" "what next" 1000
    demoState2_reachable (by decide)
  refine ⟨by decide, h.1, ?_⟩
  rw [h.2.1]
  decide

/-- C5: whenever the estimated token total of the assembled Context
Package exceeds the configured ceiling, buildContext removes verbatim
window turns starting from the oldest (the kept turns are a suffix
`drop k`, with at least one turn removed when any was present), never
removes the summary block or the current query (both are still in the
package), and stops when the budget is met or no verbatim turn remains
(the current query and head blocks being all that is left). -/
theorem buildContext_trims_oldest_first (st : SysState) (profileBlock q : String)
    (ceiling : Nat)
    (hover : ceiling < packageTokens (headBlocks st profileBlock) + estimate q +
        windowTokens (window st.msgs)) :
    ∃ k, buildContext st profileBlock q ceiling =
        headBlocks st profileBlock ++
          ((window st.msgs).drop k).map Block.turn ++ [Block.query q]
      ∧ (packageTokens (headBlocks st profileBlock) + estimate q +
            windowTokens ((window st.msgs).drop k) ≤ ceiling
          ∨ (window st.msgs).drop k = [])
      ∧ (0 < k ∨ window st.msgs = [])
      ∧ Block.query q ∈ buildContext st profileBlock q ceiling
      ∧ (∀ s, st.session.context_summary = some s →
          Block.summaryBlock s ∈ buildContext st profileBlock q ceiling) := by
  have hq : Block.query q ∈ buildContext st profileBlock q ceiling := by
    rw [buildContext_eq]
    simp
  have hs : ∀ s, st.session.context_summary = some s →
      Block.summaryBlock s ∈ buildContext st profileBlock q ceiling := by
    intro s hsum
    rw [buildContext_eq]
    simp [headBlocks, hsum]
  cases hw : window st.msgs with
  | nil =>
    refine ⟨0, ?_, Or.inr (by simp), Or.inr rfl, hq, hs⟩
    rw [buildContext_eq, hw]
    rfl
  | cons m rest =>
    have hnot : ¬ (packageTokens (headBlocks st profileBlock) + estimate q +
        windowTokens (m :: rest) ≤ ceiling) := by
      rw [hw] at hover
      omega
    obtain ⟨k, hk, hcond⟩ :=
      trimWindow_drop (packageTokens (headBlocks st profileBlock) + estimate q)
        ceiling rest
    refine ⟨k + 1, ?_, ?_, Or.inl (Nat.succ_pos k), hq, hs⟩
    · rw [buildContext_eq, hw]
      simp only [trimWindow, if_neg hnot, List.drop_succ_cons]
      rw [hk]
    · rw [List.drop_succ_cons]
      exact hcond

theorem buildContext_trims_oldest_first_witness :
    0 < packageTokens (headBlocks demoState2 "p") + estimate "current question" +
        windowTokens (window demoState2.msgs)
    ∧ ∃ k, buildContext demoState2 "p" "current question" 0 =
          headBlocks demoState2 "p" ++
            ((window demoState2.msgs).drop k).map Block.turn ++
            [Block.query "current question"]
        ∧ (packageTokens (headBlocks demoState2 "p") + estimate "current question" +
              windowTokens ((window demoState2.msgs).drop k) ≤ 0
            ∨ (window demoState2.msgs).drop k = [])
        ∧ (0 < k ∨ window demoState2.msgs = [])
        ∧ Block.query "current question" ∈
            buildContext demoState2 "p" "current question" 0
        ∧ (∀ s, demoState2.session.context_summary = some s →
            Block.summaryBlock s ∈
              buildContext demoState2 "p" "current question" 0) :=
  ⟨by decide,
   buildContext_trims_oldest_first demoState2 "p" "current question" 0 (by decide)⟩

/-- C6: the Token Estimator is deterministic (identical input texts give
the same integer) and monotonic in input length: if a is no longer than
b then `estimate a ≤ estimate b`. -/
theorem estimate_deterministic_and_monotone :
    (∀ a b : String, a = b → estimate a = estimate b)
    ∧ (∀ a b : String, a.length ≤ b.length → estimate a ≤ estimate b) :=
  ⟨fun _ _ h => by rw [h], fun _ _ h => Nat.div_le_div_right h⟩

theorem estimate_deterministic_and_monotone_witness :
    ("hi" : String).length ≤ ("hello" : String).length
    ∧ estimate "hi" = estimate "hi"
    ∧ estimate "hi" ≤ estimate "hello" :=
  ⟨by decide, estimate_deterministic_and_monotone.1 "hi" "hi" rfl,
   estimate_deterministic_and_monotone.2 "hi" "hello" (by decide)⟩

/-- Modelled from the spec: the per-session summary state machine of the
Summarizer Trigger (spec section 4.4). -/
inductive SummaryState where
  | noSummaryNeeded
  | summaryStale
  | summaryFresh
deriving Repr, DecidableEq

/-- Modelled from the spec: the state-machine classification of a
session (spec section 4.4): NoSummaryNeeded while at most 10 messages;
SummaryStale when more than 10 messages and either no summary is stored
or it leaves messages older than the window uncovered; SummaryFresh
otherwise. -/
def summaryState (st : SysState) : SummaryState :=
  if st.session.message_count ≤ 10 then SummaryState.noSummaryNeeded
  else if st.session.context_summary = none ∨
      st.session.summary_through_sequence + 10 < st.session.message_count then
    SummaryState.summaryStale
  else SummaryState.summaryFresh

/-- Modelled from the spec: merging the outcome of the external
summarization call (spec section 4.4); a failed call (`none`) is logged
only and leaves the session record untouched. -/
def mergeSummarization (st : SysState) (result : Option String)
    (through : Nat) : SysState :=
  match result with
  | none => st
  | some txt => applySummary st txt through

/-- Modelled from the spec: one user-facing turn on a session whose
trigger fires (spec sections 4.4 and 4.5): the summarization outcome is
merged (a no-op on failure), and the Context Package is assembled from
the resulting session state; a package is always produced. -/
def processTurn (st : SysState) (profileBlock q : String) (ceiling : Nat)
    (summarizeResult : Option String) : SysState × List Block :=
  let st' := if summaryState st = SummaryState.summaryStale then
      mergeSummarization st summarizeResult (st.session.message_count - 10)
    else st
  (st', buildContext st' profileBlock q ceiling)

/-- C7: when the external summarization call fails, the user-facing turn
still succeeds — a Context Package is produced, equal to the one built
from the unchanged session, and when no summary was stored it carries no
summary block (window-only context) — and the session's summary state is
unchanged: `context_summary` and `summary_through_sequence` keep their
prior values and the session remains SummaryStale, so the next
triggering turn retries. -/
theorem summarization_failure_graceful (st : SysState) (profileBlock q : String)
    (ceiling : Nat) (hstale : summaryState st = SummaryState.summaryStale) :
    (processTurn st profileBlock q ceiling none).1.session.context_summary =
        st.session.context_summary
    ∧ (processTurn st profileBlock q ceiling none).1.session.summary_through_sequence =
        st.session.summary_through_sequence
    ∧ summaryState (processTurn st profileBlock q ceiling none).1 =
        SummaryState.summaryStale
    ∧ (processTurn st profileBlock q ceiling none).2 =
        buildContext st profileBlock q ceiling
    ∧ (st.session.context_summary = none →
        summaryTexts (processTurn st profileBlock q ceiling none).2 = []) := by
  have hst : (processTurn st profileBlock q ceiling none).1 = st := by
    simp [processTurn, mergeSummarization, hstale]
  have hpkg : (processTurn st profileBlock q ceiling none).2 =
      buildContext st profileBlock q ceiling := by
    simp [processTurn, mergeSummarization, hstale]
  refine ⟨by rw [hst], by rw [hst], by rw [hst]; exact hstale, hpkg, ?_⟩
  intro hnone
  rw [hpkg, summaryTexts_buildContext, hnone]
  rfl

/-- A session that is SummaryStale: more than 10 recorded messages and
no summary stored yet. -/
def demoStale : SysState :=
  { sessionId := "s2", msgs := [],
    session := { message_count := 11, last_intent := none,
                 context_summary := none, summary_through_sequence := 0 } }

theorem summarization_failure_graceful_witness :
    summaryState demoStale = SummaryState.summaryStale
    ∧ summaryState (processTurn demoStale "p" "how long" 100 none).1 =
        SummaryState.summaryStale
    ∧ (processTurn demoStale "p" "how long" 100 none).2 =
        buildContext demoStale "p" "how long" 100
    ∧ (demoStale.session.context_summary = none →
        summaryTexts (processTurn demoStale "p" "how long" 100 none).2 = []) :=
  ⟨by decide,
   (summarization_failure_graceful demoStale "p" "how long" 100 (by decide)).2.2.1,
   (summarization_failure_graceful demoStale "p" "how long" 100 (by decide)).2.2.2.1,
   (summarization_failure_graceful demoStale "p" "how long" 100 (by decide)).2.2.2.2⟩

/-
  Frontend route handlers and handlers embedded from the TypeScript
  sources under src/frontend and the unnamed component files.
-/

/-- The backend's answer to a forwarded fetch, as observed by a Next.js
route handler: `ok`, HTTP `status`, and the JSON body (kept opaque). -/
structure BackendResponse where
  ok : Bool
  status : Nat
  body : String
deriving Repr, DecidableEq

/-- A response produced by a route handler: HTTP status, an error
`detail` body when present, and the forwarded payload otherwise. -/
structure RouteResponse where
  status : Nat
  detail : Option String
  payload : Option String
deriving Repr, DecidableEq

/-- GET handler of `/api/sessions/[sessionId]/history`
(src/frontend/src/app/api/sessions/[sessionId]/history/route.ts): the
incoming Authorization header (absent modelled as `none`) is forwarded
as `token || ''`; a non-ok backend response is mapped to the backend's
status with body `{"detail": "Failed to fetch history"}`, an ok response
to status 200 with the backend body.  The returned pair also exposes the
Authorization value actually sent to the backend. -/
def historyGET (auth : Option String) (backend : String → BackendResponse) :
    String × RouteResponse :=
  let token := match auth with
    | some t => t
    | none => ""
  let r := backend token
  (token,
    if r.ok then { status := 200, detail := none, payload := some r.body }
    else { status := r.status, detail := some "Failed to fetch history",
           payload := none })

/-- C8: the history route never rejects locally for a missing
Authorization header: it always calls the backend, forwarding the header
value or the empty string when absent, its status is always the one
derived from the backend's answer (never a locally produced 401), and on
a non-ok backend response it returns the backend's status with the body
detail "Failed to fetch history". -/
theorem history_route_always_forwards (auth : Option String)
    (backend : String → BackendResponse) :
    (auth = none → (historyGET auth backend).1 = "")
    ∧ (∀ t, auth = some t → (historyGET auth backend).1 = t)
    ∧ (historyGET auth backend).2.status =
        (if (backend (historyGET auth backend).1).ok then 200
         else (backend (historyGET auth backend).1).status)
    ∧ ((backend (historyGET auth backend).1).ok = false →
        (historyGET auth backend).2 =
          { status := (backend (historyGET auth backend).1).status,
            detail := some "Failed to fetch history", payload := none }) := by
  cases auth with
  | none =>
    refine ⟨fun _ => rfl, ?_, ?_, ?_⟩
    · intro t ht
      cases ht
    · by_cases h : (backend "").ok <;> simp [historyGET, h]
    · intro h
      simp only [historyGET] at h ⊢
      simp [h]
  | some t =>
    refine ⟨?_, ?_, ?_, ?_⟩
    · intro h
      cases h
    · intro u hu
      cases hu
      rfl
    · by_cases h : (backend t).ok <;> simp [historyGET, h]
    · intro h
      simp only [historyGET] at h ⊢
      simp [h]

theorem history_route_always_forwards_witness :
    (historyGET none (fun _ => { ok := false, status := 503, body := "e" })).1 = ""
    ∧ (historyGET none (fun _ => { ok := false, status := 503, body := "e" })).2 =
        { status := 503, detail := some "Failed to fetch history",
          payload := none } :=
  ⟨(history_route_always_forwards none
      (fun _ => { ok := false, status := 503, body := "e" })).1 rfl,
   (history_route_always_forwards none
      (fun _ => { ok := false, status := 503, body := "e" })).2.2.2 rfl⟩

/-- A file selected in a file input: its name and its size in bytes. -/
structure SelectedFile where
  name : String
  size : Nat
deriving Repr, DecidableEq

/-- What DocumentUploader.handleUpload does before and instead of any
network activity: `noFile` when the change event carries no file,
`validationError` when a local check rejects the file before the token
fetch, and `proceed` when the handler goes on to fetch the auth token
and call the extraction endpoint. -/
inductive UploadOutcome where
  | noFile
  | validationError : String → UploadOutcome
  | proceed
deriving Repr, DecidableEq

/-- The 4.5MB Vercel serverless body limit used by handleUpload
(4.5 * 1024 * 1024 bytes). -/
def maxUploadSize : Nat := 4718592

def endsWithPdf (name : String) : Bool := name.toLower.endsWith ".pdf"

/-- DocumentUploader.handleUpload (unnamed component source): rejects a
file whose lowercased name does not end in ".pdf", then a file larger
than the 4.5MB limit, each time setting an error and returning before
any token fetch or network call; otherwise it proceeds to the extraction
request.  The uploaded-documents list is returned unchanged alongside
the outcome (handleUpload never touches it). -/
def handleUpload (file? : Option SelectedFile) (docs : List String) :
    UploadOutcome × List String :=
  match file? with
  | none => (UploadOutcome.noFile, docs)
  | some f =>
    if endsWithPdf f.name = false then
      (UploadOutcome.validationError "Only PDF files are supported", docs)
    else if maxUploadSize < f.size then
      (UploadOutcome.validationError "File too large", docs)
    else
      (UploadOutcome.proceed, docs)

/-- C9: for every selected file whose name does not end in ".pdf"
(case-insensitive) or whose size exceeds 4.5 * 1024 * 1024 bytes,
handleUpload sets a validation error and returns without proceeding to
the token fetch or any endpoint call, and the uploaded-documents list is
unchanged. -/
theorem handleUpload_validates_before_network (f : SelectedFile)
    (docs : List String)
    (h : endsWithPdf f.name = false ∨ maxUploadSize < f.size) :
    ((handleUpload (some f) docs).1 =
        UploadOutcome.validationError "Only PDF files are supported"
      ∨ (handleUpload (some f) docs).1 =
        UploadOutcome.validationError "File too large")
    ∧ (handleUpload (some f) docs).2 = docs
    ∧ (handleUpload (some f) docs).1 ≠ UploadOutcome.proceed := by
  by_cases hp : endsWithPdf f.name = false
  · refine ⟨Or.inl ?_, ?_, ?_⟩ <;> simp [handleUpload, hp]
  · have hsize : maxUploadSize < f.size := by
      rcases h with h | h
      · exact absurd h hp
      · exact h
    refine ⟨Or.inr ?_, ?_, ?_⟩ <;> simp [handleUpload, hp, hsize]

theorem handleUpload_validates_before_network_witness :
    (endsWithPdf "scan.PDF" = false ∨ maxUploadSize < 9999999)
    ∧ (((handleUpload (some { name := "scan.PDF", size := 9999999 }) []).1 =
          UploadOutcome.validationError "Only PDF files are supported"
        ∨ (handleUpload (some { name := "scan.PDF", size := 9999999 }) []).1 =
          UploadOutcome.validationError "File too large")
      ∧ (handleUpload (some { name := "scan.PDF", size := 9999999 }) []).2 = []
      ∧ (handleUpload (some { name := "scan.PDF", size := 9999999 }) []).1 ≠
          UploadOutcome.proceed) :=
  ⟨Or.inr (by decide),
   handleUpload_validates_before_network { name := "scan.PDF", size := 9999999 } []
     (Or.inr (by decide))⟩

/-- A form-data field sent by the discharge page: the selected file
(identified by name) or the pasted text. -/
inductive FormField where
  | fileField : String → FormField
  | textField : String → FormField
deriving Repr, DecidableEq

/-- The observable effect of the discharge page's handleSubmit: either
no request together with the error message set, or a request to an
endpoint with the form-data fields it carries. -/
inductive SubmitAction where
  | noRequest : String → SubmitAction
  | request : String → List FormField → SubmitAction
deriving Repr, DecidableEq

/-- Discharge page handleSubmit (unnamed page source): with neither a
file nor non-empty text it sets an error and returns; with a file in
image mode it posts the file to the prescription-extraction endpoint;
otherwise it posts to /api/discharge/simplify with the file when one is
selected and with the text field only when no file is selected. -/
def handleSubmit (uploadMode : Option String) (file? : Option SelectedFile)
    (text : String) : SubmitAction :=
  if file? = none ∧ text = "" then
    SubmitAction.noRequest "Please provide a file, image, or text."
  else
    match file? with
    | some f =>
      if uploadMode = some "image" then
        SubmitAction.request "/extract/prescription" [FormField.fileField f.name]
      else
        SubmitAction.request "/api/discharge/simplify" [FormField.fileField f.name]
    | none =>
      SubmitAction.request "/api/discharge/simplify" [FormField.textField text]

/-- C10: in the discharge page's handleSubmit a selected file always
takes precedence over pasted text — when a file is present the request's
form data is exactly the file field and never contains the text field;
the text field is sent only when no file is selected; and when neither a
file nor non-empty text is present no request is made and the error
"Please provide a file, image, or text." is set. -/
theorem handleSubmit_file_precedence (uploadMode : Option String)
    (file? : Option SelectedFile) (text : String) :
    (∀ f, file? = some f → ∃ e, handleSubmit uploadMode file? text =
        SubmitAction.request e [FormField.fileField f.name])
    ∧ (file? = none → text ≠ "" → handleSubmit uploadMode file? text =
        SubmitAction.request "/api/discharge/simplify" [FormField.textField text])
    ∧ (file? = none → text = "" → handleSubmit uploadMode file? text =
        SubmitAction.noRequest "Please provide a file, image, or text.") := by
  refine ⟨?_, ?_, ?_⟩
  · intro f hf
    subst hf
    have hcond : ¬ ((some f : Option SelectedFile) = none ∧ text = "") := by
      intro hc
      cases hc.1
    by_cases hm : uploadMode = some "image"
    · exact ⟨"/extract/prescription", by simp [handleSubmit, hcond, hm]⟩
    · exact ⟨"/api/discharge/simplify", by simp [handleSubmit, hcond, hm]⟩
  · intro hn ht
    subst hn
    have hcond : ¬ ((none : Option SelectedFile) = none ∧ text = "") := by
      intro hc
      exact ht hc.2
    simp [handleSubmit, hcond, ht]
  · intro hn ht
    subst hn
    subst ht
    simp [handleSubmit]

theorem handleSubmit_file_precedence_witness :
    (∃ e, handleSubmit (some "image") (some { name := "rx.jpg", size := 5 }) "" =
        SubmitAction.request e [FormField.fileField "rx.jpg"])
    ∧ handleSubmit none none "take twice daily" =
        SubmitAction.request "/api/discharge/simplify"
          [FormField.textField "take twice daily"]
    ∧ handleSubmit none none "" =
        SubmitAction.noRequest "Please provide a file, image, or text." :=
  ⟨(handleSubmit_file_precedence (some "image")
      (some { name := "rx.jpg", size := 5 }) "").1 { name := "rx.jpg", size := 5 } rfl,
   (handleSubmit_file_precedence none none "take twice daily").2.1 rfl (by decide),
   (handleSubmit_file_precedence none none "").2.2 rfl rfl⟩

end HDMS
